import Mathlib

/-!
Verification of the LaborGuard retrieval-augmented answer pipeline.

The definitions below are a shallow embedding of the Python sources:
* `src/main.py` / `src/api/api.py` — the keyword classifier `is_legal_question`
  (both files contain the identical function) and the reasoning-segment
  stripping done on synthesized answers;
* `src/models/rerank/dashcope.py` — `DashscopeRerankerPostprocessor._postprocess_nodes`;
* `src/ragflow/ragflow.py` — `RagFlow.rerank` and `RagFlow.answer`;
* `src/config/config.py` — the `Config.RAG` defaults.

Python strings are modelled as `List Char` (Python `len` counts code points,
matching `List.length`); Python floats are modelled as exact rationals `ℚ`
(all constants in the sources are short decimal literals).  Python's `dict`
iterates in insertion order, so the keyword table is a list of pairs in
source order.  `set` objects used only for membership are modelled as lists.
-/

namespace LaborGuard

/-- Python `str.split()` (no separator argument): split on runs of whitespace
and drop empty fragments. -/
def pySplit (s : List Char) : List (List Char) :=
  (s.splitOnP Char.isWhitespace).filter (fun t => !t.isEmpty)

/-- Python `str.strip()`: drop leading and trailing whitespace. -/
def pyStrip (s : List Char) : List Char :=
  ((s.dropWhile Char.isWhitespace).reverse.dropWhile Char.isWhitespace).reverse

/-- The fixed keyword → weight table of `is_legal_question`
(`src/main.py` lines 101-152, identical in `src/api/api.py`), in source order. -/
def legal_keywords : List (List Char × ℚ) :=
  [("劳动法".toList, 5/10), ("劳动合同".toList, 5/10), ("劳动合同法".toList, 5/10),
   ("劳动争议".toList, 5/10),
   ("工资".toList, 4/10), ("加班费".toList, 4/10), ("工伤".toList, 4/10),
   ("赔偿".toList, 4/10), ("经济补偿".toList, 4/10), ("解除合同".toList, 4/10),
   ("终止合同".toList, 4/10),
   ("用人单位".toList, 3/10), ("劳动者".toList, 3/10), ("雇主".toList, 3/10),
   ("员工".toList, 3/10), ("职工".toList, 3/10),
   ("社保".toList, 3/10), ("社会保险".toList, 3/10), ("公积金".toList, 3/10),
   ("五险一金".toList, 3/10),
   ("试用期".toList, 3/10), ("竞业限制".toList, 3/10), ("保密协议".toList, 3/10),
   ("劳务派遣".toList, 3/10),
   ("年假".toList, 2/10), ("产假".toList, 2/10), ("病假".toList, 2/10),
   ("婚假".toList, 2/10), ("丧假".toList, 2/10),
   ("工作时间".toList, 2/10), ("休息休假".toList, 2/10), ("工作环境".toList, 2/10),
   ("劳动仲裁".toList, 3/10), ("法院起诉".toList, 3/10), ("调解".toList, 2/10)]

/-- `base_threshold = 0.35` (`src/main.py` line 155). -/
def base_threshold : ℚ := 35/100

/-- `length_factor = min(len(text) / 10 * 0.02, 0.1)` (`src/main.py` line 156). -/
def length_factor (n : ℕ) : ℚ := min ((n : ℚ) / 10 * (2/100)) (1/10)

/-- `dynamic_threshold = base_threshold + length_factor` (`src/main.py` line 157). -/
def dynamicThreshold (text : List Char) : ℚ := base_threshold + length_factor text.length

/-- One iteration of the keyword loop of `is_legal_question`
(`src/main.py` lines 163-168).  State is `(total_score, matched_keywords)`;
`keyword in text` is Python substring containment, and
`any(kw in matched_keywords for kw in keyword.split())` is set membership of
each whitespace token of the keyword. -/
def scanStep (text : List Char) (st : ℚ × List (List Char)) (kv : List Char × ℚ) :
    ℚ × List (List Char) :=
  if kv.1 <:+: text then
    if (pySplit kv.1).any (fun kw => st.2.contains kw) then st
    else (st.1 + kv.2, st.2 ++ [kv.1])
  else st

/-- Diagnostic record returned by the classifier (spec §3 `ClassificationResult`). -/
structure ClassificationResult where
  is_legal : Bool
  total_score : ℚ
  dynamic_threshold : ℚ
  matched_keywords : List (List Char)
deriving Repr

/-- `is_legal_question` (`src/main.py` lines 98-184, identical in
`src/api/api.py` lines 63-149): scan the keyword table accumulating
`total_score` and `matched_keywords`, then compare against the dynamic
threshold with `is_legal = total_score >= dynamic_threshold`. -/
def is_legal_question (text : List Char) : ClassificationResult :=
  let dynamic_threshold := dynamicThreshold text
  let acc := legal_keywords.foldl (scanStep text) (0, [])
  { is_legal := decide (acc.1 ≥ dynamic_threshold)
    total_score := acc.1
    dynamic_threshold := dynamic_threshold
    matched_keywords := acc.2 }

/-- Restatement of the scanning rule in the words of claim C3 (spec §4.1):
"add a keyword's weight whenever the keyword occurs as a substring of the
text, unless one of that keyword's whitespace-delimited tokens is already in
the matched-keyword set". -/
def specScan (text : List Char) :
    List (List Char × ℚ) → ℚ × List (List Char) → ℚ × List (List Char)
  | [], st => st
  | kv :: rest, (total, matched) =>
    if kv.1 <:+: text ∧ ¬ (∃ tok ∈ pySplit kv.1, tok ∈ matched) then
      specScan text rest (total + kv.2, matched ++ [kv.1])
    else
      specScan text rest (total, matched)

/-! ### Helper lemmas about the classifier -/

theorem scanStep_eq (text : List Char) (st : ℚ × List (List Char)) (kv : List Char × ℚ) :
    scanStep text st kv =
      if kv.1 <:+: text ∧ ¬ (∃ tok ∈ pySplit kv.1, tok ∈ st.2) then
        (st.1 + kv.2, st.2 ++ [kv.1])
      else st := by
  unfold scanStep
  by_cases h1 : kv.1 <:+: text
  · by_cases h2 : ∃ tok ∈ pySplit kv.1, tok ∈ st.2
    · have hb : ((pySplit kv.1).any fun kw => st.2.contains kw) = true := by simpa using h2
      simp [h1, hb, h2]
    · have hb : ((pySplit kv.1).any fun kw => st.2.contains kw) = false := by simpa using h2
      simp [h1, hb, h2]
  · simp [h1, fun hc : _ ∧ _ => h1 hc.1]

theorem foldl_scanStep_eq_specScan (text : List Char) :
    ∀ (ks : List (List Char × ℚ)) (st : ℚ × List (List Char)),
      ks.foldl (scanStep text) st = specScan text ks st := by
  intro ks
  induction ks with
  | nil => intro st; rfl
  | cons kv rest ih =>
    intro st
    obtain ⟨total, matched⟩ := st
    rw [List.foldl_cons, ih, scanStep_eq]
    show _ = specScan text (kv :: rest) (total, matched)
    simp only [specScan]
    by_cases h : kv.1 <:+: text ∧ ¬ (∃ tok ∈ pySplit kv.1, tok ∈ matched)
    · rw [if_pos h, if_pos h]
    · rw [if_neg h, if_neg h]

theorem foldl_scanStep_eq_filter (text : List Char) :
    ∀ (ks : List (List Char × ℚ)) (total : ℚ) (matched : List (List Char)),
      (∀ kv ∈ ks, pySplit kv.1 = [kv.1]) →
      (∀ kv ∈ ks, kv.1 ∉ matched) →
      (ks.map Prod.fst).Nodup →
      ks.foldl (scanStep text) (total, matched) =
        (total + ((ks.filter (fun kv => decide (kv.1 <:+: text))).map Prod.snd).sum,
         matched ++ (ks.filter (fun kv => decide (kv.1 <:+: text))).map Prod.fst) := by
  intro ks
  induction ks with
  | nil => intro total matched _ _ _; simp
  | cons kv rest ih =>
    intro total matched hsplit hfresh hnodup
    have hsplit_kv : pySplit kv.1 = [kv.1] := hsplit kv (List.mem_cons_self kv rest)
    have hfresh_kv : kv.1 ∉ matched := hfresh kv (List.mem_cons_self kv rest)
    have hnodup_rest : (rest.map Prod.fst).Nodup :=
      (List.nodup_cons.mp (by simpa using hnodup)).2
    have hhead : kv.1 ∉ rest.map Prod.fst :=
      (List.nodup_cons.mp (by simpa using hnodup)).1
    rw [List.foldl_cons, scanStep_eq]
    by_cases h1 : kv.1 <:+: text
    · have hcond : kv.1 <:+: text ∧ ¬ (∃ tok ∈ pySplit kv.1, tok ∈ matched) := by
        refine ⟨h1, ?_⟩
        rw [hsplit_kv]
        simp [hfresh_kv]
      rw [if_pos hcond]
      rw [ih (total + kv.2) (matched ++ [kv.1])
        (fun x hx => hsplit x (List.mem_cons_of_mem kv hx))
        (fun x hx => by
          intro hmem
          rcases List.mem_append.mp hmem with hm | hm
          · exact hfresh x (List.mem_cons_of_mem kv hx) hm
          · rw [List.mem_singleton] at hm
            exact hhead (hm ▸ List.mem_map_of_mem Prod.fst hx))
        hnodup_rest]
      simp only [List.filter_cons, h1, decide_true_eq_true, if_true, List.map_cons,
        List.sum_cons, Prod.mk.injEq]
      constructor
      · ring
      · simp [List.append_assoc]
    · have hcond : ¬ (kv.1 <:+: text ∧ ¬ (∃ tok ∈ pySplit kv.1, tok ∈ matched)) :=
        fun hc => h1 hc.1
      rw [if_neg hcond]
      rw [ih total matched
        (fun x hx => hsplit x (List.mem_cons_of_mem kv hx))
        (fun x hx => hfresh x (List.mem_cons_of_mem kv hx))
        hnodup_rest]
      simp [List.filter_cons, h1]

theorem legal_keywords_split : ∀ kv ∈ legal_keywords, pySplit kv.1 = [kv.1] := by
  decide

theorem legal_keywords_nodup : (legal_keywords.map Prod.fst).Nodup := by
  decide

/-! ### Claims C3, C4, C10 -/

/-- C3: for every input string the classifier returns the verdict
`is_legal = (total_score >= dynamic_threshold)`, where `total_score` and the
matched-keyword set are accumulated by scanning the fixed keyword-weight table,
adding a keyword's weight whenever the keyword occurs as a substring of the
text unless one of its whitespace-delimited tokens is already in the
matched-keyword set. -/
theorem c3_classifier_verdict (text : List Char) :
    (is_legal_question text).is_legal
        = decide ((is_legal_question text).total_score
            ≥ (is_legal_question text).dynamic_threshold)
    ∧ (is_legal_question text).total_score
        = (specScan text legal_keywords (0, [])).1
    ∧ (is_legal_question text).matched_keywords
        = (specScan text legal_keywords (0, [])).2
    ∧ (is_legal_question text).dynamic_threshold = dynamicThreshold text := by
  refine ⟨rfl, ?_, ?_, rfl⟩
  · show (legal_keywords.foldl (scanStep text) (0, [])).1 = _
    rw [foldl_scanStep_eq_specScan]
  · show (legal_keywords.foldl (scanStep text) (0, [])).2 = _
    rw [foldl_scanStep_eq_specScan]

/-- C4: the dynamic threshold equals `0.35 + min(len(text) / 10 * 0.02, 0.10)`,
is monotonically non-decreasing in the length of the text, and lies in the
closed interval [0.35, 0.45]. -/
theorem c4_dynamic_threshold (s t : List Char) (h : s.length ≤ t.length) :
    dynamicThreshold s = 35/100 + min ((s.length : ℚ) / 10 * (2/100)) (1/10)
    ∧ dynamicThreshold s ≤ dynamicThreshold t
    ∧ 35/100 ≤ dynamicThreshold s ∧ dynamicThreshold s ≤ 45/100 := by
  refine ⟨rfl, ?_, ?_, ?_⟩
  · unfold dynamicThreshold length_factor
    have hc : (s.length : ℚ) ≤ (t.length : ℚ) := by exact_mod_cast h
    have : (s.length : ℚ) / 10 * (2/100) ≤ (t.length : ℚ) / 10 * (2/100) := by
      have h10 : (s.length : ℚ) / 10 ≤ (t.length : ℚ) / 10 := by linarith
      nlinarith
    exact add_le_add_left (min_le_min this le_rfl) base_threshold
  · unfold dynamicThreshold length_factor base_threshold
    have h1 : (0 : ℚ) ≤ (s.length : ℚ) / 10 * (2/100) := by positivity
    have h2 : (0 : ℚ) ≤ min ((s.length : ℚ) / 10 * (2/100)) (1/10) :=
      le_min h1 (by norm_num)
    linarith
  · unfold dynamicThreshold length_factor base_threshold
    have h2 : min ((s.length : ℚ) / 10 * (2/100)) (1/10) ≤ 1/10 := min_le_right _ _
    linarith

/-- Witness for C4 at concrete inputs. -/
theorem c4_dynamic_threshold_witness :
    ("ab".toList.length ≤ "abcd".toList.length)
    ∧ (dynamicThreshold "ab".toList
          = 35/100 + min (("ab".toList.length : ℚ) / 10 * (2/100)) (1/10)
        ∧ dynamicThreshold "ab".toList ≤ dynamicThreshold "abcd".toList
        ∧ 35/100 ≤ dynamicThreshold "ab".toList
        ∧ dynamicThreshold "ab".toList ≤ 45/100) :=
  ⟨by decide, c4_dynamic_threshold "ab".toList "abcd".toList (by decide)⟩

/-- C10: since no keyword of the table contains whitespace, the dedup check
never suppresses a match — the total score is exactly the sum of the weights
of the keywords occurring as substrings of the text, and the matched-keyword
set is exactly that set of keywords. -/
theorem c10_dedup_inert (text : List Char) :
    (is_legal_question text).total_score
        = ((legal_keywords.filter (fun kv => decide (kv.1 <:+: text))).map Prod.snd).sum
    ∧ (is_legal_question text).matched_keywords
        = (legal_keywords.filter (fun kv => decide (kv.1 <:+: text))).map Prod.fst := by
  have h := foldl_scanStep_eq_filter text legal_keywords 0 []
    legal_keywords_split (by simp) legal_keywords_nodup
  constructor
  · show (legal_keywords.foldl (scanStep text) (0, [])).1 = _
    rw [h]; ring
  · show (legal_keywords.foldl (scanStep text) (0, [])).2 = _
    rw [h]; simp

/-! ### Rerank postprocessor (`src/models/rerank/dashcope.py`) and pipeline
(`src/ragflow/ragflow.py`) -/

/-- A `NodeWithScore` as the rerank step sees it: an identity for the wrapped
law-article chunk plus the mutable relevance score.  The chunk text only feeds
the external rerank call, which is abstracted as a function on nodes. -/
structure Node where
  id : ℕ
  score : ℚ
deriving DecidableEq, Repr

/-- `Config.RAG["rerank_min_score"]` default `0.5` (`src/config/config.py` line 15). -/
def rerank_min_score : ℚ := 5/10

/-- `Config.RAG["rerank_top_n"]` default `20` (`src/config/config.py` line 14). -/
def rerank_top_n : ℕ := 20

/-- `batch_size = 20` (`src/models/rerank/dashcope.py` line 90). -/
def batch_size : ℕ := 20

/-- The batching loop `for i in range(0, len(nodes), batch_size)` slicing
`nodes[i:i + batch_size]` (`src/models/rerank/dashcope.py` lines 93-94). -/
def chunkBatches : List Node → List (List Node)
  | [] => []
  | x :: xs => ((x :: xs).take batch_size) :: chunkBatches ((x :: xs).drop batch_size)
termination_by l => l.length
decreasing_by
  simp only [List.length_drop, List.length_cons, batch_size]
  omega

/-- `node.score = float(result.get('relevance_score', 0))`
(`src/models/rerank/dashcope.py` line 104). -/
def updScore (p : Node × ℚ) : Node := { p.1 with score := p.2 }

/-- The score-update loop of `_postprocess_nodes`
(`src/models/rerank/dashcope.py` lines 93-105): for each batch, call the
external rerank service — abstracted as `call`, which returns one relevance
score per document on success and `[]` when `_call_dashscope_rerank` reports a
request failure — and `zip` the batch with the returned results, appending the
updated nodes to `all_results`.  Python's `zip` truncates to the shorter
argument, exactly as `List.zip` does. -/
def assignScores (call : List Node → List ℚ) (nodes : List Node) : List Node :=
  ((chunkBatches nodes).map (fun b => (b.zip (call b)).map updScore)).flatten

/-- Stable insertion of a node into a descending-sorted list: the new element
goes after all existing elements whose score is ≥ its own. -/
def insertDesc (x : Node) : List Node → List Node
  | [] => [x]
  | y :: ys => if x.score ≤ y.score then y :: insertDesc x ys else x :: y :: ys

/-- `all_results.sort(key=lambda x: x.score, reverse=True)`
(`src/models/rerank/dashcope.py` line 108).  Python's `list.sort` is
documented stable: equal elements keep their original relative order, which
the left-to-right insertion of `insertDesc` reproduces. -/
def stableSortDesc (l : List Node) : List Node :=
  l.foldl (fun acc x => insertDesc x acc) []

/-- `_postprocess_nodes` (`src/models/rerank/dashcope.py` lines 84-113).
`RagFlow.rerank` always passes `query_str=question`, so the
`not query_bundle` early return never fires with a missing query; the
`not nodes` guard is kept.  The `except` fallback of the outer `try` is
unreachable in this model because `call` (modelling
`_call_dashscope_rerank`, which catches its own exceptions and returns `[]`)
is total. -/
def postprocessNodes (call : List Node → List ℚ) (top_n : ℕ) (nodes : List Node) :
    List Node :=
  if nodes.isEmpty then nodes.take top_n
  else (stableSortDesc (assignScores call nodes)).take top_n

/-- `RagFlow.rerank` (`src/ragflow/ragflow.py` lines 100-108): postprocess the
candidates with the rerank model, then keep exactly the nodes with
`node.score > CONFIG_RAG["rerank_min_score"]`. -/
def RagFlow.rerank (postprocess : List Node → List Node) (min_score : ℚ)
    (nodes : List Node) : List Node :=
  (postprocess nodes).filter (fun node => decide (min_score < node.score))

/-- Pipeline operations whose invocation the orchestrator theorems track. -/
inductive Step where
  | classify
  | retrieve
  | rerank
  | synthesize
deriving DecidableEq, Repr

/-- The fixed no-evidence message of `RagFlow.answer` (`src/ragflow/ragflow.py`
line 124). -/
def noEvidenceMsg : List Char :=
  "⚠️ 未找到相关法律条文，请尝试调整问题描述或咨询专业律师。".toList

/-- Result of `RagFlow.answer`: the `(response_text, reranked_nodes)` pair the
source returns, plus the list of pipeline operations that executed. -/
structure AnswerResult where
  text : List Char
  nodes : List Node
  steps : List Step
deriving DecidableEq, Repr

/-- `RagFlow.answer` (`src/ragflow/ragflow.py` lines 117-129): retrieve, then
unconditionally rerank the retrieved candidates, then synthesize only when the
reranked set is non-empty, else return the fixed no-evidence message.  The
external retriever's output is `retrieved`; the rerank model and the response
synthesizer are the function parameters. -/
def RagFlow.answer (retrieved : List Node) (postprocess : List Node → List Node)
    (min_score : ℚ) (synth : List Node → List Char) : AnswerResult :=
  let initial_nodes := retrieved
  let reranked_nodes := RagFlow.rerank postprocess min_score initial_nodes
  if reranked_nodes.isEmpty then
    { text := noEvidenceMsg, nodes := reranked_nodes,
      steps := [Step.retrieve, Step.rerank] }
  else
    { text := synth reranked_nodes, nodes := reranked_nodes,
      steps := [Step.retrieve, Step.rerank, Step.synthesize] }

/-! ### Stable-sort lemmas -/

theorem mem_insertDesc {a x : Node} : ∀ {l : List Node},
    a ∈ insertDesc x l ↔ a = x ∨ a ∈ l := by
  intro l
  induction l with
  | nil => simp [insertDesc]
  | cons y ys ih =>
    unfold insertDesc
    by_cases h : x.score ≤ y.score
    · rw [if_pos h]
      simp only [List.mem_cons, ih]
      tauto
    · rw [if_neg h]
      simp only [List.mem_cons]

theorem pairwise_insertDesc {x : Node} : ∀ {l : List Node},
    l.Pairwise (fun a b => b.score ≤ a.score) →
    (insertDesc x l).Pairwise (fun a b => b.score ≤ a.score) := by
  intro l
  induction l with
  | nil => intro _; simp [insertDesc]
  | cons y ys ih =>
    intro hp
    obtain ⟨hy, hys⟩ := List.pairwise_cons.mp hp
    unfold insertDesc
    by_cases h : x.score ≤ y.score
    · rw [if_pos h]
      refine List.pairwise_cons.mpr ⟨?_, ih hys⟩
      intro a ha
      rcases mem_insertDesc.mp ha with rfl | ha
      · exact h
      · exact hy a ha
    · rw [if_neg h]
      refine List.pairwise_cons.mpr ⟨?_, hp⟩
      intro a ha
      rcases List.mem_cons.mp ha with rfl | ha
      · exact le_of_lt (lt_of_not_le h)
      · exact le_trans (hy a ha) (le_of_lt (lt_of_not_le h))

theorem filter_insertDesc_ne {x : Node} {v : ℚ} (hx : ¬ x.score = v) :
    ∀ (l : List Node),
      (insertDesc x l).filter (fun n => decide (n.score = v))
        = l.filter (fun n => decide (n.score = v)) := by
  intro l
  induction l with
  | nil => simp [insertDesc, hx]
  | cons y ys ih =>
    unfold insertDesc
    by_cases h : x.score ≤ y.score
    · rw [if_pos h]
      simp only [List.filter_cons, ih]
    · rw [if_neg h, List.filter_cons_of_neg (by simp [hx])]

theorem filter_eq_nil_of_head_lt {v : ℚ} {y : Node} {ys : List Node}
    (hp : (y :: ys).Pairwise (fun a b => b.score ≤ a.score))
    (hy : y.score < v) :
    (y :: ys).filter (fun n => decide (n.score = v)) = [] := by
  rw [List.filter_eq_nil_iff]
  intro a ha
  rcases List.mem_cons.mp ha with rfl | ha
  · simp [ne_of_lt hy]
  · have := (List.pairwise_cons.mp hp).1 a ha
    have : a.score < v := lt_of_le_of_lt this hy
    simp [ne_of_lt this]

theorem filter_insertDesc_eq {x : Node} {v : ℚ} (hx : x.score = v) :
    ∀ (l : List Node),
      l.Pairwise (fun a b => b.score ≤ a.score) →
      (insertDesc x l).filter (fun n => decide (n.score = v))
        = l.filter (fun n => decide (n.score = v)) ++ [x] := by
  intro l
  induction l with
  | nil => simp [insertDesc, hx]
  | cons y ys ih =>
    intro hp
    unfold insertDesc
    by_cases h : x.score ≤ y.score
    · rw [if_pos h]
      simp only [List.filter_cons, ih (List.pairwise_cons.mp hp).2]
      by_cases hyv : y.score = v
      · simp [hyv]
      · simp [hyv]
    · rw [if_neg h]
      have hlt : y.score < v := hx ▸ lt_of_not_le h
      rw [List.filter_cons_of_pos (by simp [hx]), filter_eq_nil_of_head_lt hp hlt]
      rfl

theorem pairwise_sortAux :
    ∀ (l : List Node) (acc : List Node),
      acc.Pairwise (fun a b => b.score ≤ a.score) →
      (l.foldl (fun acc x => insertDesc x acc) acc).Pairwise
        (fun a b => b.score ≤ a.score) := by
  intro l
  induction l with
  | nil => intro acc h; exact h
  | cons x xs ih =>
    intro acc h
    exact ih (insertDesc x acc) (pairwise_insertDesc h)

theorem pairwise_stableSortDesc (l : List Node) :
    (stableSortDesc l).Pairwise (fun a b => b.score ≤ a.score) :=
  pairwise_sortAux l [] (List.Pairwise.nil)

theorem filter_sortAux (v : ℚ) :
    ∀ (l : List Node) (acc : List Node),
      acc.Pairwise (fun a b => b.score ≤ a.score) →
      (l.foldl (fun acc x => insertDesc x acc) acc).filter
          (fun n => decide (n.score = v))
        = acc.filter (fun n => decide (n.score = v))
          ++ l.filter (fun n => decide (n.score = v)) := by
  intro l
  induction l with
  | nil => intro acc _; simp
  | cons x xs ih =>
    intro acc hacc
    rw [List.foldl_cons, ih (insertDesc x acc) (pairwise_insertDesc hacc)]
    by_cases hx : x.score = v
    · rw [filter_insertDesc_eq hx acc hacc,
        List.filter_cons_of_pos (by simp [hx]), List.append_assoc]
      rfl
    · rw [filter_insertDesc_ne hx acc, List.filter_cons_of_neg (by simp [hx])]

theorem filter_stableSortDesc (v : ℚ) (l : List Node) :
    (stableSortDesc l).filter (fun n => decide (n.score = v))
      = l.filter (fun n => decide (n.score = v)) :=
  filter_sortAux v l [] (List.Pairwise.nil)

theorem mem_sortAux {a : Node} :
    ∀ (l : List Node) (acc : List Node),
      a ∈ l.foldl (fun acc x => insertDesc x acc) acc ↔ a ∈ acc ∨ a ∈ l := by
  intro l
  induction l with
  | nil => intro acc; simp
  | cons x xs ih =>
    intro acc
    rw [List.foldl_cons, ih (insertDesc x acc)]
    simp only [mem_insertDesc, List.mem_cons]
    tauto

theorem mem_stableSortDesc {a : Node} {l : List Node} :
    a ∈ stableSortDesc l ↔ a ∈ l := by
  unfold stableSortDesc
  rw [mem_sortAux]
  simp

theorem chunkBatches_cons (x : Node) (xs : List Node) :
    chunkBatches (x :: xs)
      = ((x :: xs).take batch_size) :: chunkBatches ((x :: xs).drop batch_size) := by
  conv_lhs => unfold chunkBatches

theorem chunkBatches_flatten : ∀ (l : List Node), (chunkBatches l).flatten = l := by
  intro l
  induction l using chunkBatches.induct with
  | case1 => simp [chunkBatches]
  | case2 x xs ih =>
    rw [chunkBatches_cons, List.flatten_cons, ih, List.take_append_drop]

theorem zip_updScore_map_id :
    ∀ (b : List Node) (s : List ℚ),
      ((b.zip s).map updScore).map Node.id = (b.take s.length).map Node.id := by
  intro b
  induction b with
  | nil => intro s; simp
  | cons x xs ih =>
    intro s
    cases s with
    | nil => simp
    | cons r rs => simp [updScore, ih]

theorem assignScores_map_id (call : List Node → List ℚ) (nodes : List Node)
    (hcall : ∀ b ∈ chunkBatches nodes, (call b).length = b.length) :
    (assignScores call nodes).map Node.id = nodes.map Node.id := by
  have h1 : (chunkBatches nodes).map (fun b => (((b.zip (call b)).map updScore).map Node.id))
      = (chunkBatches nodes).map (fun b => b.map Node.id) := by
    apply List.map_congr_left
    intro b hb
    rw [zip_updScore_map_id, hcall b hb, List.take_length]
  unfold assignScores
  rw [List.map_flatten, List.map_map]
  simp only [Function.comp_def]
  rw [h1, ← List.map_flatten, chunkBatches_flatten]

/-! ### Claims C1, C2, C6 -/

/-- C1: every candidate in the EvidenceSet returned by `RagFlow.rerank` has a
score strictly greater than the configured minimum score floor; candidates at
or below the floor never appear. -/
theorem c1_score_above_floor (postprocess : List Node → List Node) (min_score : ℚ)
    (nodes : List Node) (n : Node)
    (h : n ∈ RagFlow.rerank postprocess min_score nodes) :
    min_score < n.score := by
  unfold RagFlow.rerank at h
  have := List.of_mem_filter h
  simpa using this

/-- Input for the C1 witness. -/
def c1node : Node := { id := 0, score := 1 }

/-- Witness for C1 at the default floor `rerank_min_score = 0.5`. -/
theorem c1_score_above_floor_witness :
    c1node ∈ RagFlow.rerank (fun l => l) rerank_min_score [c1node]
    ∧ rerank_min_score < c1node.score := by
  have h : c1node ∈ RagFlow.rerank (fun l => l) rerank_min_score [c1node] := by
    unfold RagFlow.rerank rerank_min_score c1node
    rw [List.filter_cons_of_pos (by simp only [decide_eq_true_eq]; norm_num)]
    exact List.mem_cons_self _ _
  exact ⟨h, c1_score_above_floor (fun l => l) rerank_min_score [c1node] c1node h⟩

/-- C2: when the external rerank call succeeds on every batch (one relevance
score per document), the batch reassembly preserves the original retrieval
order of the candidates, the postprocessed sequence is sorted descending by
the newly assigned score, and the sort is stable: for each score value the
candidates carrying it appear in the sorted sequence exactly in their original
relative order. -/
theorem c2_rerank_sorted_stable (call : List Node → List ℚ) (top_n : ℕ)
    (nodes : List Node) (v : ℚ)
    (hcall : ∀ b ∈ chunkBatches nodes, (call b).length = b.length) :
    (assignScores call nodes).map Node.id = nodes.map Node.id
    ∧ (postprocessNodes call top_n nodes).Pairwise (fun a b => b.score ≤ a.score)
    ∧ (stableSortDesc (assignScores call nodes)).filter (fun n => decide (n.score = v))
        = (assignScores call nodes).filter (fun n => decide (n.score = v)) := by
  refine ⟨assignScores_map_id call nodes hcall, ?_, filter_stableSortDesc v _⟩
  unfold postprocessNodes
  by_cases h : nodes.isEmpty
  · rw [if_pos h]
    rw [List.isEmpty_iff.mp h]
    simp
  · rw [if_neg h]
    exact (pairwise_stableSortDesc _).sublist (List.take_sublist _ _)

/-- Input for the C2 witness. -/
def c2nodes : List Node := [{ id := 0, score := 0 }]

/-- Rerank-call behaviour for the C2 witness: one score per document. -/
def c2call : List Node → List ℚ := fun b => b.map (fun _ => 1)

/-- Witness for C2 at a concrete candidate list and call. -/
theorem c2_rerank_sorted_stable_witness :
    (∀ b ∈ chunkBatches c2nodes, (c2call b).length = b.length)
    ∧ ((assignScores c2call c2nodes).map Node.id = c2nodes.map Node.id
      ∧ (postprocessNodes c2call rerank_top_n c2nodes).Pairwise
          (fun a b => b.score ≤ a.score)
      ∧ (stableSortDesc (assignScores c2call c2nodes)).filter
            (fun n => decide (n.score = 1))
          = (assignScores c2call c2nodes).filter (fun n => decide (n.score = 1))) := by
  have h : ∀ b ∈ chunkBatches c2nodes, (c2call b).length = b.length := by
    intro b _
    simp [c2call]
  exact ⟨h, c2_rerank_sorted_stable c2call rerank_top_n c2nodes 1 h⟩

/-- C6 counterexample: when the Evidence Retriever returns the empty sequence,
`RagFlow.answer` still invokes the Reranker step (`self.rerank` is called
unconditionally on the empty candidate list), contradicting the claim that the
Reranker is not invoked. -/
theorem c6_counterexample :
    Step.rerank ∈ (RagFlow.answer [] (postprocessNodes (fun _ => []) rerank_top_n)
      rerank_min_score (fun _ => [])).steps := by
  simp [RagFlow.answer, RagFlow.rerank, postprocessNodes]

/-- C6 amended: when the Evidence Retriever returns the empty sequence, the
orchestrator returns the fixed no-evidence message with empty evidence and
never invokes the Synthesizer; the Reranker step itself, however, is invoked
on the empty candidate list (its result does not depend on the external rerank
call, which is never made because there are no batches). -/
theorem c6_no_evidence_terminal (call : List Node → List ℚ) (top_n : ℕ)
    (min_score : ℚ) (synth : List Node → List Char) :
    RagFlow.answer [] (postprocessNodes call top_n) min_score synth
      = { text := noEvidenceMsg, nodes := [],
          steps := [Step.retrieve, Step.rerank] } := by
  simp [RagFlow.answer, RagFlow.rerank, postprocessNodes]

/-! ### Claim C5: what happens to a batch whose rerank call fails -/

theorem chunkBatches_nil : chunkBatches [] = [] := by
  conv_lhs => unfold chunkBatches

theorem chunkBatches_ne (l : List Node) (h : l ≠ []) :
    chunkBatches l = (l.take batch_size) :: chunkBatches (l.drop batch_size) := by
  cases l with
  | nil => exact absurd rfl h
  | cons x xs => exact chunkBatches_cons x xs

theorem count_zip_le (idv : ℕ) (call : List Node → List ℚ) (b : List Node) :
    (((b.zip (call b)).map updScore).map Node.id).count idv
      ≤ (b.map Node.id).count idv := by
  rw [zip_updScore_map_id]
  exact ((List.take_sublist _ _).map Node.id).count_le idv

theorem sum_counts_zip_le (idv : ℕ) (call : List Node → List ℚ) :
    ∀ (L : List (List Node)),
      (L.map (fun c => (((c.zip (call c)).map updScore).map Node.id).count idv)).sum
        ≤ (L.map (fun c => (c.map Node.id).count idv)).sum := by
  intro L
  induction L with
  | nil => simp
  | cons hd t ih =>
    simp only [List.map_cons, List.sum_cons]
    exact Nat.add_le_add (count_zip_le idv call hd) ih

theorem count_assign_zero (idv : ℕ) (call : List Node → List ℚ) :
    ∀ (L : List (List Node)) (b : List Node),
      b ∈ L → call b = [] → 1 ≤ (b.map Node.id).count idv →
      (L.map (fun c => (c.map Node.id).count idv)).sum ≤ 1 →
      (L.map (fun c => (((c.zip (call c)).map updScore).map Node.id).count idv)).sum
        = 0 := by
  intro L
  induction L with
  | nil => intro b hb; exact absurd hb (List.not_mem_nil b)
  | cons hd t ih =>
    intro b hb hfail hcount htot
    simp only [List.map_cons, List.sum_cons] at htot ⊢
    rcases List.mem_cons.mp hb with rfl | hmem
    · have h1 : (((b.zip (call b)).map updScore).map Node.id).count idv = 0 := by
        rw [hfail]
        simp
      have h2 : (t.map (fun c => (c.map Node.id).count idv)).sum = 0 := by omega
      have h3 := sum_counts_zip_le idv call t
      omega
    · have hsum_t : 1 ≤ (t.map (fun c => (c.map Node.id).count idv)).sum := by
        have hx : (b.map Node.id).count idv
            ∈ t.map (fun c => (c.map Node.id).count idv) :=
          List.mem_map_of_mem _ hmem
        exact le_trans hcount (List.single_le_sum (fun x _ => Nat.zero_le x) _ hx)
      have hhd : (hd.map Node.id).count idv = 0 := by omega
      have h1 : (((hd.zip (call hd)).map updScore).map Node.id).count idv = 0 :=
        Nat.le_zero.mp (hhd ▸ count_zip_le idv call hd)
      have h2 := ih b hmem hfail hcount (by omega)
      omega

theorem count_assignScores (v : ℕ) (call : List Node → List ℚ) (nodes : List Node) :
    ((assignScores call nodes).map Node.id).count v
      = ((chunkBatches nodes).map
          (fun c => (((c.zip (call c)).map updScore).map Node.id).count v)).sum := by
  unfold assignScores
  rw [List.map_flatten, List.count_flatten, List.map_map, List.map_map]
  simp only [Function.comp_def]

theorem count_chunk (v : ℕ) (nodes : List Node) :
    ((chunkBatches nodes).map (fun c => (c.map Node.id).count v)).sum
      = (nodes.map Node.id).count v := by
  conv_rhs => rw [← chunkBatches_flatten nodes]
  rw [List.map_flatten, List.count_flatten, List.map_map]
  simp only [Function.comp_def]

/-- C5 amended: when `_call_dashscope_rerank` fails for a batch it returns the
empty result list, and `zip` then drops every candidate of that batch from
`all_results` — the batch's candidates are omitted from the reranked output
entirely (not retained), while the other batches are scored, merged, sorted
and truncated as usual. -/
theorem c5_failed_batch_dropped (call : List Node → List ℚ) (top_n : ℕ)
    (nodes : List Node) (b : List Node) (x : Node)
    (hnodup : (nodes.map Node.id).Nodup)
    (hb : b ∈ chunkBatches nodes)
    (hfail : call b = [])
    (hx : x ∈ b) :
    x.id ∉ (postprocessNodes call top_n nodes).map Node.id := by
  intro hmem
  have hxnodes : x ∈ nodes := by
    rw [← chunkBatches_flatten nodes]
    exact List.mem_flatten_of_mem hb hx
  have hne : nodes.isEmpty = false := by
    cases nodes
    · exact absurd hxnodes (List.not_mem_nil x)
    · rfl
  rw [postprocessNodes, hne] at hmem
  simp only [Bool.false_eq_true, if_false] at hmem
  obtain ⟨n', hn', hid⟩ := List.mem_map.mp hmem
  have hn'assign : n' ∈ assignScores call nodes :=
    mem_stableSortDesc.mp ((List.take_sublist _ _).subset hn')
  have hidmem : x.id ∈ (assignScores call nodes).map Node.id :=
    hid ▸ List.mem_map_of_mem Node.id hn'assign
  have hpos : 0 < ((assignScores call nodes).map Node.id).count x.id :=
    List.count_pos_iff.mpr hidmem
  have hcb : 1 ≤ (b.map Node.id).count x.id :=
    List.count_pos_iff.mpr (List.mem_map_of_mem Node.id hx)
  have htot : ((chunkBatches nodes).map (fun c => (c.map Node.id).count x.id)).sum ≤ 1 := by
    rw [count_chunk]
    exact List.nodup_iff_count_le_one.mp hnodup x.id
  have hzero := count_assign_zero x.id call (chunkBatches nodes) b hb hfail hcb htot
  rw [count_assignScores] at hpos
  omega

/-- The 21 retrieved candidates of the C5 scenario: two batches, the first of
size `batch_size = 20` and the second of size 1. -/
def c5nodes : List Node :=
  [{ id := 0, score := 0 }, { id := 1, score := 0 }, { id := 2, score := 0 },
   { id := 3, score := 0 }, { id := 4, score := 0 }, { id := 5, score := 0 },
   { id := 6, score := 0 }, { id := 7, score := 0 }, { id := 8, score := 0 },
   { id := 9, score := 0 }, { id := 10, score := 0 }, { id := 11, score := 0 },
   { id := 12, score := 0 }, { id := 13, score := 0 }, { id := 14, score := 0 },
   { id := 15, score := 0 }, { id := 16, score := 0 }, { id := 17, score := 0 },
   { id := 18, score := 0 }, { id := 19, score := 0 }, { id := 20, score := 0 }]

/-- Rerank-call behaviour of the C5 scenario: the call fails (returns no
results) for the 20-element first batch and succeeds for the singleton second
batch. -/
def c5call : List Node → List ℚ := fun b => if b.length = 1 then [1] else []

theorem c5chunk :
    chunkBatches c5nodes
      = [c5nodes.take batch_size, [{ id := 20, score := 0 }]] := by
  rw [chunkBatches_ne c5nodes (by decide)]
  have hdrop : c5nodes.drop batch_size = [{ id := 20, score := 0 }] := by decide
  rw [hdrop, chunkBatches_ne _ (by decide)]
  have h2 : List.take batch_size [({ id := 20, score := 0 } : Node)]
      = [{ id := 20, score := 0 }] := by decide
  have h3 : List.drop batch_size [({ id := 20, score := 0 } : Node)] = [] := by decide
  rw [h2, h3, chunkBatches_nil]

/-- C5 counterexample: the rerank call fails for the first batch of the
21-candidate list `c5nodes`; that batch's candidates (for example the node
with id 0) do not appear in the output at all — only the surviving second
batch's node (id 20) does — refuting the claim that a failed batch's
candidates are retained in the output. -/
theorem c5_counterexample :
    (c5nodes.take batch_size) ∈ chunkBatches c5nodes
    ∧ c5call (c5nodes.take batch_size) = []
    ∧ ({ id := 0, score := 0 } : Node) ∈ c5nodes.take batch_size
    ∧ (postprocessNodes c5call 30 c5nodes).map Node.id = [20] := by
  refine ⟨?_, by decide, by decide, ?_⟩
  · rw [c5chunk]
    exact List.mem_cons_self _ _
  · unfold postprocessNodes
    rw [if_neg (by decide)]
    unfold assignScores
    rw [c5chunk]
    decide

/-- Witness for the amended C5 theorem at the concrete two-batch scenario. -/
theorem c5_failed_batch_dropped_witness :
    ((c5nodes.map Node.id).Nodup
      ∧ (c5nodes.take batch_size) ∈ chunkBatches c5nodes
      ∧ c5call (c5nodes.take batch_size) = []
      ∧ ({ id := 0, score := 0 } : Node) ∈ c5nodes.take batch_size)
    ∧ ({ id := 0, score := 0 } : Node).id ∉ (postprocessNodes c5call 30 c5nodes).map Node.id := by
  have hb : (c5nodes.take batch_size) ∈ chunkBatches c5nodes := by
    rw [c5chunk]
    exact List.mem_cons_self _ _
  exact ⟨⟨by decide, hb, by decide, by decide⟩,
    c5_failed_batch_dropped c5call 30 c5nodes (c5nodes.take batch_size) _
      (by decide) hb (by decide) (by decide)⟩

/-! ### Reasoning-segment stripping (`src/main.py` lines 209-211, identical in
`src/api/api.py` lines 204-205)

`re.sub(r'<think>.*?</think>', '', answer, flags=re.DOTALL).strip()` and
`re.findall(r'<think>(.*?)</think>', answer, re.DOTALL)` scan left to right
for non-overlapping matches; with the lazy `.*?` each match starts at the
first occurrence of the open tag that is followed by the close tag and ends at
the earliest close tag after it. -/

/-- The opening reasoning delimiter. -/
def openTag : List Char := "<think>".toList

/-- The closing reasoning delimiter. -/
def closeTag : List Char := "</think>".toList

/-- Split a string at the first occurrence of `pat`: returns the part before
the occurrence and the part after it, or `none` when `pat` does not occur. -/
def splitFirstOcc (pat : List Char) : List Char → Option (List Char × List Char)
  | [] => if List.isPrefixOf pat [] then some ([], []) else none
  | c :: s =>
    if List.isPrefixOf pat (c :: s) then some ([], (c :: s).drop pat.length)
    else
      match splitFirstOcc pat s with
      | none => none
      | some (b, a) => some (c :: b, a)

theorem splitFirstOcc_eq_append (pat : List Char) :
    ∀ (s b a : List Char), splitFirstOcc pat s = some (b, a) → b ++ (pat ++ a) = s := by
  intro s
  induction s with
  | nil =>
    intro b a h
    unfold splitFirstOcc at h
    by_cases hp : List.isPrefixOf pat []
    · rw [if_pos hp] at h
      have hpat : pat = [] := by
        simpa using List.isPrefixOf_iff_prefix.mp hp
      injection h with h'
      injection h' with hb ha
      subst hb
      subst ha
      simp [hpat]
    · rw [if_neg hp] at h
      cases h
  | cons c s ih =>
    intro b a h
    unfold splitFirstOcc at h
    by_cases hp : List.isPrefixOf pat (c :: s)
    · rw [if_pos hp] at h
      injection h with h'
      injection h' with hb ha
      subst hb
      subst ha
      obtain ⟨t, ht⟩ := List.isPrefixOf_iff_prefix.mp hp
      conv_rhs => rw [← ht]
      rw [← ht, List.drop_left]
      simp
    · rw [if_neg hp] at h
      cases hsp : splitFirstOcc pat s with
      | none =>
        rw [hsp] at h
        cases h
      | some pr =>
        obtain ⟨b', a'⟩ := pr
        rw [hsp] at h
        injection h with h'
        injection h' with hb ha
        subst hb
        subst ha
        have := ih b' a' hsp
        rw [← this]
        simp

theorem splitFirstOcc_length (pat s b a : List Char)
    (h : splitFirstOcc pat s = some (b, a)) :
    a.length + pat.length ≤ s.length := by
  have h1 := congrArg List.length (splitFirstOcc_eq_append pat s b a h)
  simp only [List.length_append] at h1
  omega

/-- The regex scan shared by `re.sub` (first component: the input with every
`<think>…</think>` segment deleted) and `re.findall` (second component: the
list of segment contents). -/
def stripThinkAux (s : List Char) : List Char × List (List Char) :=
  match h1 : splitFirstOcc openTag s with
  | none => (s, [])
  | some (pre, rest) =>
    match h2 : splitFirstOcc closeTag rest with
    | none => (s, [])
    | some (mid, post) =>
      let r := stripThinkAux post
      (pre ++ r.1, mid :: r.2)
termination_by s.length
decreasing_by
  have e1 := splitFirstOcc_length openTag s pre rest h1
  have e2 := splitFirstOcc_length closeTag rest mid post h2
  have e3 : 0 < openTag.length := by decide
  have e4 : 0 < closeTag.length := by decide
  omega

/-- `reply_text = re.sub(r'<think>.*?</think>', '', answer, DOTALL).strip()`. -/
def reply_text (answer : List Char) : List Char := pyStrip (stripThinkAux answer).1

/-- `think_text = re.findall(r'<think>(.*?)</think>', answer, re.DOTALL)`. -/
def think_text (answer : List Char) : List (List Char) := (stripThinkAux answer).2

theorem stripThinkAux_none1 (s : List Char)
    (h1 : splitFirstOcc openTag s = none) :
    stripThinkAux s = (s, []) := by
  unfold stripThinkAux
  split
  · rfl
  · next pre rest heq =>
    rw [h1] at heq
    cases heq

theorem stripThinkAux_none2 (s pre rest : List Char)
    (h1 : splitFirstOcc openTag s = some (pre, rest))
    (h2 : splitFirstOcc closeTag rest = none) :
    stripThinkAux s = (s, []) := by
  unfold stripThinkAux
  split
  · rfl
  · next pre' rest' heq1 =>
    rw [h1] at heq1
    injection heq1 with h'
    injection h' with hb ha
    subst hb
    subst ha
    split
    · rfl
    · next mid post heq2 =>
      rw [h2] at heq2
      cases heq2

theorem stripThinkAux_some (s pre rest mid post : List Char)
    (h1 : splitFirstOcc openTag s = some (pre, rest))
    (h2 : splitFirstOcc closeTag rest = some (mid, post)) :
    stripThinkAux s
      = (pre ++ (stripThinkAux post).1, mid :: (stripThinkAux post).2) := by
  conv_lhs => unfold stripThinkAux
  split
  · next heq =>
    rw [h1] at heq
    cases heq
  · next pre' rest' heq1 =>
    rw [h1] at heq1
    injection heq1 with h'
    injection h' with hb ha
    subst hb
    subst ha
    split
    · next heq2 =>
      rw [h2] at heq2
      cases heq2
    · next mid' post' heq2 =>
      rw [h2] at heq2
      injection heq2 with h''
      injection h'' with hm hp
      subst hm
      subst hp
      rfl

theorem stripThinkAux_fst_of_no_think (s : List Char)
    (h : (stripThinkAux s).2 = []) :
    (stripThinkAux s).1 = s := by
  cases h1 : splitFirstOcc openTag s with
  | none => rw [stripThinkAux_none1 s h1]
  | some pr =>
    obtain ⟨pre, rest⟩ := pr
    cases h2 : splitFirstOcc closeTag rest with
    | none => rw [stripThinkAux_none2 s pre rest h1 h2]
    | some pr2 =>
      obtain ⟨mid, post⟩ := pr2
      rw [stripThinkAux_some s pre rest mid post h1 h2] at h
      cases h

/-- First-occurrence computation at a marked boundary: if `pat` neither occurs
inside `X` nor overlaps itself (no border), the first occurrence of `pat` in
`X ++ pat ++ Y` is the explicit one. -/
theorem splitFirstOcc_boundary (pat : List Char) (hpat : pat ≠ [])
    (hborder : ∀ j, j < pat.length → 0 < j → pat.drop j ≠ pat.take (pat.length - j)) :
    ∀ (X Y : List Char), ¬ pat <:+: X →
      splitFirstOcc pat (X ++ pat ++ Y) = some (X, Y) := by
  intro X
  induction X with
  | nil =>
    intro Y _
    have hp : List.isPrefixOf pat (pat ++ Y) = true :=
      List.isPrefixOf_iff_prefix.mpr (List.prefix_append pat Y)
    cases hpy : pat ++ Y with
    | nil =>
      cases pat with
      | nil => exact absurd rfl hpat
      | cons p ps => cases hpy
    | cons c t =>
      have hgoal : ([] : List Char) ++ pat ++ Y = c :: t := by simpa using hpy
      rw [hgoal]
      unfold splitFirstOcc
      rw [if_pos (hpy ▸ hp)]
      rw [← hpy, List.drop_left]
  | cons c X ih =>
    intro Y hX
    have hstep : (c :: X) ++ pat ++ Y = c :: (X ++ pat ++ Y) := by simp
    rw [hstep]
    have hnp : ¬ List.isPrefixOf pat (c :: (X ++ pat ++ Y)) := by
      intro hp
      have hpre : pat <+: (c :: X) ++ (pat ++ Y) := by
        have := List.isPrefixOf_iff_prefix.mp hp
        simpa using this
      have htake : pat = ((c :: X) ++ (pat ++ Y)).take pat.length := by
        have := List.prefix_iff_eq_take.mp hpre
        simpa using this
      rw [List.take_append_eq_append_take] at htake
      by_cases hlen : pat.length ≤ (c :: X).length
      · have hz : pat.length - (c :: X).length = 0 := Nat.sub_eq_zero_of_le hlen
        rw [hz] at htake
        simp only [List.take_zero, List.append_nil] at htake
        have : pat <+: c :: X := htake ▸ List.take_prefix pat.length (c :: X)
        exact hX ( List.IsPrefix.isInfix this)
      · push_neg at hlen
        have hall : (c :: X).take pat.length = c :: X :=
          List.take_of_length_le (le_of_lt hlen)
        rw [hall] at htake
        have hk : (pat ++ Y).take (pat.length - (c :: X).length)
            = pat.take (pat.length - (c :: X).length) := by
          rw [List.take_append_eq_append_take]
          have : pat.length - (c :: X).length - pat.length = 0 := by omega
          rw [this]
          simp
        rw [hk] at htake
        have hdrop : pat.drop (c :: X).length
            = pat.take (pat.length - (c :: X).length) := by
          conv_lhs => rw [htake]
          rw [List.drop_left]
        exact hborder (c :: X).length hlen (by simp) hdrop
    unfold splitFirstOcc
    rw [if_neg hnp]
    have hX' : ¬ pat <:+: X := fun hc => hX (List.infix_cons hc)
    rw [ih Y hX']

theorem openTag_ne_nil : openTag ≠ [] := by decide

theorem closeTag_ne_nil : closeTag ≠ [] := by decide

theorem openTag_no_border :
    ∀ j, j < openTag.length → 0 < j →
      openTag.drop j ≠ openTag.take (openTag.length - j) := by decide

theorem closeTag_no_border :
    ∀ j, j < closeTag.length → 0 < j →
      closeTag.drop j ≠ closeTag.take (closeTag.length - j) := by decide

/-- C9 amended: for a synthesized answer of the form `<think>X</think>Y`, when
`X` does not itself contain the close tag and `Y` contains no further complete
`<think>…</think>` segment, the stripping step yields reply text `Y`
whitespace-trimmed and thought list `[X]`. -/
theorem c9_strip_roundtrip (X Y : List Char)
    (hX : ¬ closeTag <:+: X)
    (hY : think_text Y = []) :
    reply_text (openTag ++ X ++ closeTag ++ Y) = pyStrip Y
    ∧ think_text (openTag ++ X ++ closeTag ++ Y) = [X] := by
  have hassoc : openTag ++ X ++ closeTag ++ Y = openTag ++ (X ++ closeTag ++ Y) := by
    simp
  have hopenTail : ¬ openTag <:+: ([] : List Char) := by
    intro h
    have : openTag = [] := by simpa using h
    exact openTag_ne_nil this
  have hopen : splitFirstOcc openTag (([] : List Char) ++ openTag ++ (X ++ (closeTag ++ Y)))
      = some ([], X ++ (closeTag ++ Y)) :=
    splitFirstOcc_boundary openTag openTag_ne_nil openTag_no_border [] (X ++ (closeTag ++ Y))
      hopenTail
  have hopen' : splitFirstOcc openTag (openTag ++ X ++ closeTag ++ Y)
      = some ([], X ++ (closeTag ++ Y)) := by
    rw [hassoc]
    have : openTag ++ (X ++ closeTag ++ Y)
        = ([] : List Char) ++ openTag ++ (X ++ (closeTag ++ Y)) := by simp
    rw [this]
    exact hopen
  have hclose : splitFirstOcc closeTag (X ++ closeTag ++ Y) = some (X, Y) :=
    splitFirstOcc_boundary closeTag closeTag_ne_nil closeTag_no_border X Y hX
  have hclose' : splitFirstOcc closeTag (X ++ (closeTag ++ Y)) = some (X, Y) := by
    rw [← List.append_assoc]
    exact hclose
  have hmain := stripThinkAux_some (openTag ++ X ++ closeTag ++ Y) []
    (X ++ (closeTag ++ Y)) X Y hopen' hclose'
  have hYfst : (stripThinkAux Y).1 = Y := stripThinkAux_fst_of_no_think Y hY
  constructor
  · unfold reply_text
    rw [hmain]
    simp only [List.nil_append]
    rw [hYfst]
  · unfold think_text
    rw [hmain]
    show X :: (stripThinkAux Y).2 = [X]
    rw [show (stripThinkAux Y).2 = think_text Y from rfl, hY]

/-- Witness for the amended C9 theorem. -/
theorem c9_strip_roundtrip_witness :
    ((¬ closeTag <:+: "推理".toList) ∧ think_text "答案".toList = [])
    ∧ (reply_text (openTag ++ "推理".toList ++ closeTag ++ "答案".toList)
        = pyStrip "答案".toList
      ∧ think_text (openTag ++ "推理".toList ++ closeTag ++ "答案".toList)
        = ["推理".toList]) := by
  have h1 : ¬ closeTag <:+: "推理".toList := by decide
  have h2 : think_text "答案".toList = [] := by
    unfold think_text
    rw [stripThinkAux_none1 _ (by decide)]
  exact ⟨⟨h1, h2⟩, c9_strip_roundtrip "推理".toList "答案".toList h1 h2⟩

/-- C9 counterexample: for `X = ""` and `Y = "<think>z</think>w"`, the string
`<think>X</think>Y` contains a second reasoning segment inside `Y`; the code
strips both segments, so the reply text is not `Y` trimmed and the thought
list is `["", "z"]`, not `[X]` — the claim fails without side conditions on
`X` and `Y`. -/
theorem c9_counterexample :
    ¬ (reply_text (openTag ++ ([] : List Char) ++ closeTag ++ "<think>z</think>w".toList)
          = pyStrip "<think>z</think>w".toList
      ∧ think_text (openTag ++ ([] : List Char) ++ closeTag ++ "<think>z</think>w".toList)
          = [([] : List Char)]) := by
  intro hcl
  have hs : openTag ++ ([] : List Char) ++ closeTag ++ "<think>z</think>w".toList
      = "<think></think><think>z</think>w".toList := by decide
  have h1 : splitFirstOcc openTag "<think></think><think>z</think>w".toList
      = some ([], "</think><think>z</think>w".toList) := by decide
  have h2 : splitFirstOcc closeTag "</think><think>z</think>w".toList
      = some ([], "<think>z</think>w".toList) := by decide
  have h3 : splitFirstOcc openTag "<think>z</think>w".toList
      = some ([], "z</think>w".toList) := by decide
  have h4 : splitFirstOcc closeTag "z</think>w".toList
      = some ("z".toList, "w".toList) := by decide
  have h5 : splitFirstOcc openTag "w".toList = none := by decide
  have hw : stripThinkAux "w".toList = ("w".toList, []) := stripThinkAux_none1 _ h5
  have hin : stripThinkAux "<think>z</think>w".toList
      = ("w".toList, ["z".toList]) := by
    rw [stripThinkAux_some _ _ _ _ _ h3 h4, hw]
    rfl
  have houter : stripThinkAux "<think></think><think>z</think>w".toList
      = ("w".toList, [[], "z".toList]) := by
    rw [stripThinkAux_some _ _ _ _ _ h1 h2, hin]
    rfl
  have := hcl.2
  rw [hs] at this
  unfold think_text at this
  rw [houter] at this
  cases this

/-! ### The public entry point `chat_with_assistant` (`src/api/api.py` lines
170-218) -/

/-- The fixed out-of-domain message (`src/api/api.py` lines 192-193). -/
def outOfDomainMsg : List Char := "对不起，我暂时无法回答劳动法之外的问题哦～".toList

/-- Detail of the `HTTPException(status_code=400)` raised for a blank question
(`src/api/api.py` line 185). -/
def emptyQuestionDetail : List Char := "问题不能为空".toList

/-- Detail of the `HTTPException(status_code=500)` raised by the catch-all
handler (`src/api/api.py` line 218). -/
def serverErrorDetail : List Char := "处理问题时出错".toList

/-- A raised `fastapi.HTTPException`. -/
structure HTTPException where
  status_code : ℕ
  detail : List Char
deriving DecidableEq, Repr

/-- The `ChatResponse` model (`src/api/api.py` lines 33-39); the conversation
id is threaded through unchanged and not modelled. -/
structure ChatResponse where
  answer : List Char
  reply : List Char
  is_legal : Bool
  references : List Node
  thoughts : List (List Char)
deriving DecidableEq, Repr

/-- The body of the `try` block of `chat_with_assistant` (`src/api/api.py`
lines 183-214): strip the question; raise `HTTPException(400)` when blank;
classify; when out of domain return the fixed message with empty references,
otherwise run the RAG pipeline (`ragflow.answer`, abstracted as `ragAnswer`
together with the steps it executes) and strip the reasoning segments.
The second component records which pipeline operations ran. -/
def chatBody (ragAnswer : List Char → AnswerResult) (question : List Char) :
    Except HTTPException ChatResponse × List Step :=
  let q := pyStrip question
  if q.isEmpty then
    (Except.error { status_code := 400, detail := emptyQuestionDetail }, [])
  else
    let is_legal := (is_legal_question q).is_legal
    if is_legal then
      let r := ragAnswer q
      (Except.ok { answer := r.text, reply := reply_text r.text, is_legal := is_legal,
                   references := r.nodes, thoughts := think_text r.text },
       Step.classify :: r.steps)
    else
      (Except.ok { answer := outOfDomainMsg, reply := outOfDomainMsg, is_legal := is_legal,
                   references := [], thoughts := [] },
       [Step.classify])

/-- `chat_with_assistant` (`src/api/api.py` lines 170-218): the surrounding
`try`/`except Exception` catches every exception the body raises — including
the `HTTPException(400)` for a blank question, since FastAPI's `HTTPException`
derives from `Exception` — logs it as an error and re-raises
`HTTPException(500, "处理问题时出错")`. -/
def chat_with_assistant (ragAnswer : List Char → AnswerResult) (question : List Char) :
    Except HTTPException ChatResponse × List Step :=
  match chatBody ragAnswer question with
  | (Except.error _, steps) =>
    (Except.error { status_code := 500, detail := serverErrorDetail }, steps)
  | (Except.ok r, steps) => (Except.ok r, steps)

/-! ### Claims C7 and C8 -/

/-- C7: when the classification verdict is false (and the trimmed question is
non-blank), the caller receives the fixed out-of-domain message with
`is_legal = false` and empty references, and neither retrieval nor rerank nor
synthesis is invoked — only classification runs. -/
theorem c7_out_of_domain_short_circuit (ragAnswer : List Char → AnswerResult)
    (question : List Char)
    (hne : pyStrip question ≠ [])
    (hlegal : (is_legal_question (pyStrip question)).is_legal = false) :
    chat_with_assistant ragAnswer question
      = (Except.ok { answer := outOfDomainMsg, reply := outOfDomainMsg, is_legal := false,
                     references := [], thoughts := [] }, [Step.classify])
    ∧ Step.retrieve ∉ (chat_with_assistant ragAnswer question).2
    ∧ Step.rerank ∉ (chat_with_assistant ragAnswer question).2
    ∧ Step.synthesize ∉ (chat_with_assistant ragAnswer question).2 := by
  have hq : (pyStrip question).isEmpty = false := by
    simp [List.isEmpty_iff, hne]
  have hbody : chatBody ragAnswer question
      = (Except.ok { answer := outOfDomainMsg, reply := outOfDomainMsg, is_legal := false,
                     references := [], thoughts := [] }, [Step.classify]) := by
    unfold chatBody
    simp only [hq, hlegal, Bool.false_eq_true, if_false]
  have hmain : chat_with_assistant ragAnswer question
      = (Except.ok { answer := outOfDomainMsg, reply := outOfDomainMsg, is_legal := false,
                     references := [], thoughts := [] }, [Step.classify]) := by
    unfold chat_with_assistant
    rw [hbody]
  refine ⟨hmain, ?_, ?_, ?_⟩ <;> rw [hmain] <;> simp

/-- The weather question of the spec's C7 scenario. -/
def weatherQuestion : List Char := "今天天气怎么样？".toList

theorem weather_not_legal : (is_legal_question weatherQuestion).is_legal = false := by
  have hfil : legal_keywords.filter (fun kv => decide (kv.1 <:+: weatherQuestion)) = [] := by
    decide
  have htot : (is_legal_question weatherQuestion).total_score = 0 := by
    show (legal_keywords.foldl (scanStep weatherQuestion) (0, [])).1 = 0
    rw [foldl_scanStep_eq_filter weatherQuestion legal_keywords 0 []
      legal_keywords_split (by simp) legal_keywords_nodup]
    rw [hfil]
    simp
  have hpos : 0 < dynamicThreshold weatherQuestion := by
    unfold dynamicThreshold base_threshold length_factor
    have hmin : (0 : ℚ) ≤ min ((weatherQuestion.length : ℚ) / 10 * (2/100)) (1/10) :=
      le_min (by positivity) (by norm_num)
    linarith
  have heq : (is_legal_question weatherQuestion).is_legal
      = decide ((is_legal_question weatherQuestion).total_score
          ≥ (is_legal_question weatherQuestion).dynamic_threshold) := rfl
  rw [heq, htot]
  have hthr : (is_legal_question weatherQuestion).dynamic_threshold
      = dynamicThreshold weatherQuestion := rfl
  rw [hthr]
  exact decide_eq_false (by simpa using not_le.mpr hpos)

/-- Witness for C7 at the weather question. -/
theorem c7_out_of_domain_witness :
    (pyStrip weatherQuestion ≠ []
      ∧ (is_legal_question (pyStrip weatherQuestion)).is_legal = false)
    ∧ (chat_with_assistant (fun _ => { text := [], nodes := [], steps := [] })
          weatherQuestion
        = (Except.ok { answer := outOfDomainMsg, reply := outOfDomainMsg, is_legal := false,
                       references := [], thoughts := [] }, [Step.classify])
      ∧ Step.retrieve ∉ (chat_with_assistant
          (fun _ => { text := [], nodes := [], steps := [] }) weatherQuestion).2
      ∧ Step.rerank ∉ (chat_with_assistant
          (fun _ => { text := [], nodes := [], steps := [] }) weatherQuestion).2
      ∧ Step.synthesize ∉ (chat_with_assistant
          (fun _ => { text := [], nodes := [], steps := [] }) weatherQuestion).2) := by
  have hne : pyStrip weatherQuestion ≠ [] := by decide
  have hstrip : pyStrip weatherQuestion = weatherQuestion := by decide
  have hlegal : (is_legal_question (pyStrip weatherQuestion)).is_legal = false := by
    rw [hstrip]
    exact weather_not_legal
  exact ⟨⟨hne, hlegal⟩,
    c7_out_of_domain_short_circuit (fun _ => { text := [], nodes := [], steps := [] })
      weatherQuestion hne hlegal⟩

/-- C8 (behaviour at the failing input): a blank question makes the `try` body
raise the intended client-side `HTTPException(400, "问题不能为空")` before any
pipeline stage runs, but the catch-all `except Exception` intercepts it and
the caller instead receives the generic `HTTPException(500, "处理问题时出错")`
system error. -/
theorem c8_blank_question_becomes_500 (ragAnswer : List Char → AnswerResult) :
    chatBody ragAnswer []
      = (Except.error { status_code := 400, detail := emptyQuestionDetail }, [])
    ∧ chat_with_assistant ragAnswer []
      = (Except.error { status_code := 500, detail := serverErrorDetail }, []) := by
  constructor
  · rfl
  · rfl

end LaborGuard
